import Mathlib

/-!
Verification of the technical-indicator and metric computations of the
reddit-stock-analyzer repository.

The functions embedded here are translated from:
* `frontend/src/components/charts/TechnicalChart.tsx`
  (`computeEMA`, `computeRSI`, `computeMACD`, `computeBB`);
* `frontend/src/components/ui/data-table.tsx` (the `DataTable` sort comparator);
* the historic-performance page (`comparisonMetrics`, max-drawdown loop);
* the confluence scoring contract, which has no implementation in the
  repository sources (only its record type and display sites appear) and is
  therefore modelled from the specification.

Modelling conventions:
* JavaScript numbers are modelled as exact rationals (`ℚ`); floating-point
  rounding is outside the scope of these theorems.  `Math.sqrt`, which is
  irrational-valued, is modelled as an explicit function parameter.
* JavaScript array reads `a[i]` at in-range indices are modelled by
  `List.getD a i 0`; all index arithmetic stays in range wherever the
  theorems use it, and `period ≥ 1` is assumed where the JS expression
  `period - 1` would otherwise be negative.
* In-place array writes (`result[i] = v`) are modelled by `List.set`, and
  the imperative loops by `List.foldl` over the visited index ranges.
-/

namespace RedditStock

/-! ### computeEMA (TechnicalChart.tsx lines 175-194) -/

/-- One iteration of the `computeEMA` loop body: state is the carried `ema`
variable and the `result` array built so far; `i` is the loop index.
`closes.getD i 0` models the in-range JS read `closes[i]`. -/
def emaStep (closes : List ℚ) (period : ℕ) (st : ℚ × List ℚ) (i : ℕ) : ℚ × List ℚ :=
  if i < period - 1 then (st.1, st.2 ++ [0])
  else if i = period - 1 then
    let e := ((List.range period).map (fun j => closes.getD (i - j) 0)).sum / (period : ℚ)
    (e, st.2 ++ [e])
  else
    let k : ℚ := 2 / ((period : ℚ) + 1)
    let e := closes.getD i 0 * k + st.1 * (1 - k)
    (e, st.2 ++ [e])

/-- `computeEMA` from TechnicalChart.tsx: `k = 2/(period+1)`, zero-fill before
index `period-1`, SMA seed at `period-1`, then the EMA recurrence. -/
def computeEMA (closes : List ℚ) (period : ℕ) : List ℚ :=
  ((List.range closes.length).foldl (emaStep closes period) (0, [])).2

/-- The SMA seed value: average of `closes[period-1-j]` for `j < period`,
exactly the inner `for (let j = 0; j < period; j++)` loop of the source. -/
def initSMA (closes : List ℚ) (period : ℕ) : ℚ :=
  ((List.range period).map (fun j => closes.getD (period - 1 - j) 0)).sum / (period : ℚ)

/-- Recursive (specification-style) form of the EMA value at index `i ≥ period-1`:
SMA seed at `period-1`, then `close*k + prev*(1-k)`.  Values below `period-1`
are junk (the seed), never used. -/
def emaAt (closes : List ℚ) (period : ℕ) : ℕ → ℚ
  | 0 => initSMA closes period
  | i + 1 =>
      if i + 1 ≤ period - 1 then initSMA closes period
      else
        let k : ℚ := 2 / ((period : ℚ) + 1)
        closes.getD (i + 1) 0 * k + emaAt closes period i * (1 - k)

/-- Value of `computeEMA` at position `m`: `0` below `period-1`, `emaAt` after. -/
def emaOut (closes : List ℚ) (period : ℕ) (m : ℕ) : ℚ :=
  if m < period - 1 then 0 else emaAt closes period m

/-! ### computeRSI (TechnicalChart.tsx lines 197-223) -/

/-- `avgLoss === 0 ? 100 : 100 - 100 / (1 + avgGain / avgLoss)`. -/
def rsiOf (g l : ℚ) : ℚ := if l = 0 then 100 else 100 - 100 / (1 + g / l)

/-- Main-loop gain at bar `i`: `change > 0 ? change : 0`,
`change = closes[i] - closes[i-1]`. -/
def gainAt (closes : List ℚ) (i : ℕ) : ℚ :=
  let change := closes.getD i 0 - closes.getD (i - 1) 0
  if 0 < change then change else 0

/-- Main-loop loss at bar `i`: `change < 0 ? Math.abs(change) : 0`. -/
def lossAt (closes : List ℚ) (i : ℕ) : ℚ :=
  let change := closes.getD i 0 - closes.getD (i - 1) 0
  if change < 0 then |change| else 0

/-- Seed loop `for (i = 1; i <= period; i++)`: gains accumulated when
`change > 0`, divided by `period` at the end. -/
def initAvgGain (closes : List ℚ) (period : ℕ) : ℚ :=
  (((List.range period).map (fun j =>
      let change := closes.getD (j + 1) 0 - closes.getD j 0
      if 0 < change then change else 0)).sum) / (period : ℚ)

/-- Seed loop losses: the `else avgLoss += Math.abs(change)` branch. -/
def initAvgLoss (closes : List ℚ) (period : ℕ) : ℚ :=
  (((List.range period).map (fun j =>
      let change := closes.getD (j + 1) 0 - closes.getD j 0
      if 0 < change then 0 else |change|)).sum) / (period : ℚ)

/-- Wilder-smoothed average gain after bar `i` (meaningful for `i ≥ period`):
the seed average at `i ≤ period`, then
`avgGain = (avgGain*(period-1) + gain)/period`. -/
def avgGainW (closes : List ℚ) (period : ℕ) : ℕ → ℚ
  | 0 => initAvgGain closes period
  | i + 1 =>
      if i + 1 ≤ period then initAvgGain closes period
      else (avgGainW closes period i * ((period : ℚ) - 1) + gainAt closes (i + 1)) / (period : ℚ)

/-- Wilder-smoothed average loss after bar `i`. -/
def avgLossW (closes : List ℚ) (period : ℕ) : ℕ → ℚ
  | 0 => initAvgLoss closes period
  | i + 1 =>
      if i + 1 ≤ period then initAvgLoss closes period
      else (avgLossW closes period i * ((period : ℚ) - 1) + lossAt closes (i + 1)) / (period : ℚ)

/-- The RSI value written at bar `i ≥ period`. -/
def rsiAt (closes : List ℚ) (period : ℕ) (i : ℕ) : ℚ :=
  rsiOf (avgGainW closes period i) (avgLossW closes period i)

/-- One iteration of the main `computeRSI` loop; state is
`(avgGain, avgLoss, result)` and the body writes `result[i]`. -/
def rsiStep (closes : List ℚ) (period : ℕ) (st : ℚ × ℚ × List ℚ) (i : ℕ) : ℚ × ℚ × List ℚ :=
  let g := (st.1 * ((period : ℚ) - 1) + gainAt closes i) / (period : ℚ)
  let l := (st.2.1 * ((period : ℚ) - 1) + lossAt closes i) / (period : ℚ)
  (g, l, st.2.2.set i (rsiOf g l))

/-- `computeRSI` from TechnicalChart.tsx: zero-filled result, early return
when `closes.length < period + 1`, seed averages over the first `period`
changes, `result[period]`, then the Wilder loop from `period+1`. -/
def computeRSI (closes : List ℚ) (period : ℕ) : List ℚ :=
  if closes.length < period + 1 then List.replicate closes.length 0
  else
    let g0 := initAvgGain closes period
    let l0 := initAvgLoss closes period
    let r0 := (List.replicate closes.length 0).set period (rsiOf g0 l0)
    ((List.range' (period + 1) (closes.length - (period + 1))).foldl
      (rsiStep closes period) (g0, l0, r0)).2.2

/-- Value held at position `m` of the result array once bars up to `upTo`
have been processed. -/
def rsiOut (closes : List ℚ) (period upTo : ℕ) (m : ℕ) : ℚ :=
  if period ≤ m ∧ m ≤ upTo then rsiAt closes period m else 0

/-! ### computeMACD (TechnicalChart.tsx lines 226-233) -/

/-- JS `v || d` on numbers: `v` when truthy (nonzero), else `d`
(`ℚ` has no NaN, so nonzero is the only truthiness case). -/
def jsOr (v d : ℚ) : ℚ := if v = 0 then d else v

/-- The `macd` array: `closes.map((_, i) => ema12[i] && ema26[i] ?
ema12[i] - ema26[i] : 0)`; `x && y` is truthy iff both are nonzero. -/
def macdLine (closes : List ℚ) : List ℚ :=
  (List.range closes.length).map (fun i =>
    if (computeEMA closes 12).getD i 0 ≠ 0 ∧ (computeEMA closes 26).getD i 0 ≠ 0 then
      (computeEMA closes 12).getD i 0 - (computeEMA closes 26).getD i 0
    else 0)

/-- The `signal` array: `computeEMA(macd.map((v) => v || 0), 9)`. -/
def signalLine (closes : List ℚ) : List ℚ :=
  computeEMA ((macdLine closes).map (fun v => jsOr v 0)) 9

/-- The `histogram` array: `macd.map((v, i) => v - (signal[i] || 0))`. -/
def histogramLine (closes : List ℚ) : List ℚ :=
  (List.range (macdLine closes).length).map (fun i =>
    (macdLine closes).getD i 0 - jsOr ((signalLine closes).getD i 0) 0)

/-- `computeMACD` returns `{ macd, signal, histogram }`. -/
def computeMACD (closes : List ℚ) : List ℚ × List ℚ × List ℚ :=
  (macdLine closes, signalLine closes, histogramLine closes)

/-! ### computeBB (TechnicalChart.tsx lines 236-253) -/

/-- The loop body of `computeBB` for the upper band at index `i`.
`sqrtFn` models the real-valued `Math.sqrt` (irrational in general, so kept
as a parameter; the flat-series theorems only use `sqrtFn 0 = 0`, which
holds for `Math.sqrt`).  The slice `closes.slice(i - period + 1, i + 1)` is
`drop (i + 1 - period)` then `take period` (for `i ≥ period - 1` the two
index forms agree). -/
def bbUpperAt (sqrtFn : ℚ → ℚ) (closes : List ℚ) (period : ℕ) (mult : ℚ) (i : ℕ) : ℚ :=
  if i < period - 1 then 0
  else
    let slice := (closes.drop (i + 1 - period)).take period
    let mean := slice.sum / (period : ℚ)
    let variance := (slice.map (fun b => (b - mean) ^ 2)).sum / (period : ℚ)
    mean + mult * sqrtFn variance

/-- The loop body of `computeBB` for the lower band (`mean - mult * std`). -/
def bbLowerAt (sqrtFn : ℚ → ℚ) (closes : List ℚ) (period : ℕ) (mult : ℚ) (i : ℕ) : ℚ :=
  if i < period - 1 then 0
  else
    let slice := (closes.drop (i + 1 - period)).take period
    let mean := slice.sum / (period : ℚ)
    let variance := (slice.map (fun b => (b - mean) ^ 2)).sum / (period : ℚ)
    mean - mult * sqrtFn variance

/-- Upper Bollinger band array. -/
def bbUpper (sqrtFn : ℚ → ℚ) (closes : List ℚ) (period : ℕ) (mult : ℚ) : List ℚ :=
  (List.range closes.length).map (bbUpperAt sqrtFn closes period mult)

/-- Lower Bollinger band array. -/
def bbLower (sqrtFn : ℚ → ℚ) (closes : List ℚ) (period : ℕ) (mult : ℚ) : List ℚ :=
  (List.range closes.length).map (bbLowerAt sqrtFn closes period mult)

/-- `computeBB` returns `{ upper, lower }`. -/
def computeBB (sqrtFn : ℚ → ℚ) (closes : List ℚ) (period : ℕ) (mult : ℚ) :
    List ℚ × List ℚ :=
  (bbUpper sqrtFn closes period mult, bbLower sqrtFn closes period mult)

/-! ### comparisonMetrics max drawdown (historic performance page) -/

/-- Loop body of the max-drawdown scan:
`if (c > peak) peak = c; const dd = ((peak - c) / peak) * 100;
if (dd > maxDd) maxDd = dd`. -/
def ddStep (st : ℚ × ℚ) (c : ℚ) : ℚ × ℚ :=
  let peak := if st.1 < c then c else st.1
  let dd := (peak - c) / peak * 100
  (peak, if st.2 < dd then dd else st.2)

/-- The max-drawdown loop of `comparisonMetrics`: `peak = closes[0]`,
`maxDd = 0`, one pass over all closes. -/
def maxDrawdown (closes : List ℚ) : ℚ :=
  (closes.foldl ddStep (closes.getD 0 0, 0)).2

/-- `comparisonMetrics` returns `maxDrawdown: 0` when fewer than 2 bars. -/
def comparisonMaxDrawdown (closes : List ℚ) : ℚ :=
  if closes.length < 2 then 0 else maxDrawdown closes

/-- The claim's specification of max drawdown: the maximum over all bars of
`(runningPeak - close) / runningPeak * 100`, where `runningPeak` is the
maximum close seen so far (seeded with the first close). -/
def ddMaxSpec : ℚ → List ℚ → ℚ
  | _, [] => 0
  | p, c :: cs => max ((max p c - c) / max p c * 100) (ddMaxSpec (max p c) cs)

/-! ### DataTable sorting (data-table.tsx lines 37-52) -/

/-- The `DataTable` comparator (data-table.tsx lines 39-51) on sort-key
cells of type `null | number | string`, modelled as `Option (ℚ ⊕ String)`:
`av == null && bv == null → 0`, `av == null → 1`, `bv == null → -1`; two
numbers compare as `av - bv` ("asc", `dir = true`) or `bv - av` ("desc");
every other non-null pair falls through to
`String(av).localeCompare(String(bv))`, modelled by the parameter `strCmp`
(the `String()` coercion composed with the locale collation is an
environment input, so it is kept abstract). -/
def rowCompare (strCmp : ℚ ⊕ String → ℚ ⊕ String → ℚ) (dir : Bool)
    (av bv : Option (ℚ ⊕ String)) : ℚ :=
  match av, bv with
  | none, none => 0
  | none, some _ => 1
  | some _, none => -1
  | some (Sum.inl x), some (Sum.inl y) => if dir then x - y else y - x
  | some x, some y => strCmp x y

/-- `[...data].sort(cmp)` in the stable-sort model: ECMAScript requires a
stable sort, and when the comparator is a consistent comparison function
the output is the unique stable comparator-ordered permutation, which the
stable insertion sort computes; a row is (sort-key cell, rest of the row). -/
def sortRows {β : Type} (strCmp : ℚ ⊕ String → ℚ ⊕ String → ℚ) (dir : Bool)
    (data : List (Option (ℚ ⊕ String) × β)) : List (Option (ℚ ⊕ String) × β) :=
  data.insertionSort (fun a b => rowCompare strCmp dir a.1 b.1 ≤ 0)

/-- ECMAScript's consistency requirement on a comparison function,
restricted to the rows of the array being sorted: `cmp ≤ 0` is total and
transitive there (purity and sign antisymmetry hold by construction in
this model). -/
def consistentOn {β : Type} (strCmp : ℚ ⊕ String → ℚ ⊕ String → ℚ) (dir : Bool)
    (data : List (Option (ℚ ⊕ String) × β)) : Prop :=
  (∀ a ∈ data, ∀ b ∈ data,
      rowCompare strCmp dir a.1 b.1 ≤ 0 ∨ rowCompare strCmp dir b.1 a.1 ≤ 0) ∧
  (∀ a ∈ data, ∀ b ∈ data, ∀ c ∈ data, rowCompare strCmp dir a.1 b.1 ≤ 0 →
      rowCompare strCmp dir b.1 c.1 ≤ 0 → rowCompare strCmp dir a.1 c.1 ≤ 0)

/-- The outputs `Array.prototype.sort` may produce per ECMAScript: the
stable comparator-sorted permutation when the comparator is consistent on
the array's elements, and an implementation-defined (hence arbitrary)
permutation when it is not. -/
def conformingSort {β : Type} (strCmp : ℚ ⊕ String → ℚ ⊕ String → ℚ) (dir : Bool)
    (data out : List (Option (ℚ ⊕ String) × β)) : Prop :=
  (consistentOn strCmp dir data ∧ out = sortRows strCmp dir data) ∨
    (¬ consistentOn strCmp dir data ∧ out.Perm data)

/-- The default-locale `String(x).localeCompare(String(y))` outcomes for
the cells of the C9 counterexample, whose string forms are "9", "10" and
"2": every real default locale orders digit strings lexicographically, so
"10" < "2" < "9".  The collation is an environment input, so it is given
as an explicit rank table on these values. -/
def localeCmpCE (a b : ℚ ⊕ String) : ℚ :=
  let rank : ℚ ⊕ String → ℚ := fun v =>
    match v with
    | Sum.inl q => if q = 9 then 3 else if q = 10 then 1 else 0
    | Sum.inr _ => 2
  rank a - rank b

/-- The C9 counterexample array: a null-keyed row first, then rows keyed
9, 10 and "2" - a sort column mixing numbers with a string, on which the
comparator is cyclic (9 before 10 numerically, 10 before "2" and "2"
before 9 in locale order). -/
def ceData : List (Option (ℚ ⊕ String) × ℕ) :=
  [(none, 0), (some (Sum.inl 9), 1), (some (Sum.inl 10), 2), (some (Sum.inr "2"), 3)]

/-! ### Confluence scoring (no implementation under the sources) -/

/-- Modelled from the spec: the seven confluence factors (RSI, MACD,
MA-trend, Bollinger, sentiment, sector momentum, volume); the repository
sources only declare the `ConfluenceSignal` record
(frontend/src/lib/types.d.ts) and display it, so the scoring itself is
modelled after the specification text.  A field is `true` when that factor
is aligned bullish. -/
structure ConfluenceFactors where
  rsiA : Bool
  macdA : Bool
  maTrendA : Bool
  bollingerA : Bool
  sentimentA : Bool
  sectorA : Bool
  volumeA : Bool

/-- Modelled from the spec: `confluence_score` is the count of aligned
directional signals (0-7). -/
def confluenceScore (f : ConfluenceFactors) : ℕ :=
  (if f.rsiA then 1 else 0) + (if f.macdA then 1 else 0) +
    (if f.maTrendA then 1 else 0) + (if f.bollingerA then 1 else 0) +
    (if f.sentimentA then 1 else 0) + (if f.sectorA then 1 else 0) +
    (if f.volumeA then 1 else 0)

/-- Modelled from the spec: `signal_strength` is "Strong" when the score is
at least 5; the spec leaves the Moderate/Weak boundary open, so it is kept
as a parameter `t` (any positive threshold below 5). -/
def signalStrength (t : ℕ) (score : ℕ) : String :=
  if 5 ≤ score then "Strong" else if t ≤ score then "Moderate" else "Weak"

/-! ### Lemmas and claim theorems -/

lemma emaAt_of_le (closes : List ℚ) (period : ℕ) {m : ℕ} (hm : m ≤ period - 1) :
    emaAt closes period m = initSMA closes period := by
  cases m with
  | zero => rfl
  | succ i => rw [emaAt, if_pos hm]

/-- Loop invariant of the `computeEMA` fold: after processing the first `j`
indices the carried `ema` is `0` until the seed index has been passed and
`emaAt (j-1)` afterwards, and the result list holds `emaOut` at each position. -/
lemma emaFold_eq (closes : List ℚ) (period : ℕ) (j : ℕ) :
    (List.range j).foldl (emaStep closes period) (0, []) =
      ((if j ≤ period - 1 then 0 else emaAt closes period (j - 1)),
        (List.range j).map (emaOut closes period)) := by
  induction j with
  | zero => simp
  | succ j ih =>
      rw [List.range_succ, List.foldl_append, ih, List.map_append, List.map_cons, List.map_nil,
        List.foldl_cons, List.foldl_nil]
      rcases lt_trichotomy j (period - 1) with hj | hj | hj
      · have h1 : j + 1 ≤ period - 1 := hj
        have h2 : j ≤ period - 1 := le_of_lt hj
        simp only [emaStep, if_pos hj, if_pos h1, if_pos h2, emaOut]
      · subst hj
        have h2 : ¬ (period - 1 + 1 ≤ period - 1) := by omega
        have h3 : period - 1 ≤ period - 1 := le_refl _
        simp [emaStep, emaOut, initSMA, h2, emaAt_of_le closes period h3]
      · have h1 : ¬ (j < period - 1) := by omega
        have h2 : ¬ (j = period - 1) := by omega
        have h3 : ¬ (j ≤ period - 1) := by omega
        have h4 : ¬ (j + 1 ≤ period - 1) := by omega
        obtain ⟨m, rfl⟩ : ∃ m, j = m + 1 := ⟨j - 1, by omega⟩
        simp only [emaStep, if_neg h1, if_neg h2, if_neg h3, if_neg h4, Nat.add_sub_cancel,
          emaOut, Prod.mk.injEq]
        rw [emaAt, if_neg h3]
        exact ⟨rfl, rfl⟩

/-- `computeEMA` is pointwise `emaOut`. -/
lemma computeEMA_eq_map (closes : List ℚ) (period : ℕ) :
    computeEMA closes period = (List.range closes.length).map (emaOut closes period) := by
  rw [computeEMA, emaFold_eq closes period]

/-- Each `emaStep` appends exactly one element, so lengths are preserved
for every period (no hypothesis needed). -/
lemma emaFold_length (closes : List ℚ) (period : ℕ) (st : ℚ × List ℚ) (l : List ℕ) :
    ((l.foldl (emaStep closes period) st).2).length = st.2.length + l.length := by
  induction l generalizing st with
  | nil => simp
  | cons i t ih =>
      rw [List.foldl_cons, ih]
      have h : ((emaStep closes period st i).2).length = st.2.length + 1 := by
        unfold emaStep
        split
        · simp
        · split <;> simp
      rw [h]
      simp only [List.length_cons]
      omega

lemma computeEMA_length (closes : List ℚ) (period : ℕ) :
    (computeEMA closes period).length = closes.length := by
  rw [computeEMA, emaFold_length]
  simp

lemma computeEMA_getD (closes : List ℚ) (period : ℕ)
    {i : ℕ} (hi : i < closes.length) :
    (computeEMA closes period).getD i 0 = emaOut closes period i := by
  rw [computeEMA_eq_map closes period, List.getD_eq_getElem?_getD,
    List.getElem?_map, List.getElem?_range hi]
  rfl

lemma avgGainW_of_le (closes : List ℚ) (period : ℕ) {m : ℕ} (hm : m ≤ period) :
    avgGainW closes period m = initAvgGain closes period := by
  cases m with
  | zero => rfl
  | succ i => rw [avgGainW, if_pos hm]

lemma avgLossW_of_le (closes : List ℚ) (period : ℕ) {m : ℕ} (hm : m ≤ period) :
    avgLossW closes period m = initAvgLoss closes period := by
  cases m with
  | zero => rfl
  | succ i => rw [avgLossW, if_pos hm]

/-- Setting one position of a mapped range is again a mapped range. -/
lemma set_map_range {α : Type} (f : ℕ → α) (n i : ℕ) (v : α) (hi : i < n) :
    ((List.range n).map f).set i v =
      (List.range n).map (fun m => if m = i then v else f m) := by
  apply List.ext_getElem?
  intro j
  rw [List.getElem?_set, List.getElem?_map, List.getElem?_map]
  by_cases hij : i = j
  · subst hij
    rw [if_pos rfl, List.getElem?_range hi]
    simp [hi]
  · rw [if_neg hij]
    by_cases hj : j < n
    · rw [List.getElem?_range hj]
      have hji : ¬ (j = i) := fun h => hij h.symm
      simp [hji]
    · have h0 : (List.range n)[j]? = none :=
        List.getElem?_eq_none (by simpa using not_lt.mp hj)
      rw [h0]
      rfl

/-- The initial result array (zeros with `result[period]` written) as a map. -/
lemma rsiInit_eq_map (closes : List ℚ) (period : ℕ) (hn : period + 1 ≤ closes.length) :
    (List.replicate closes.length 0).set period
        (rsiOf (initAvgGain closes period) (initAvgLoss closes period)) =
      (List.range closes.length).map (rsiOut closes period period) := by
  have hrep : (List.replicate closes.length (0 : ℚ)) =
      (List.range closes.length).map (fun _ => 0) := by
    rw [List.map_const']
    simp
  rw [hrep, set_map_range _ _ _ _ (by omega)]
  apply List.map_congr_left
  intro m _
  by_cases hm : m = period
  · subst hm
    rw [if_pos rfl, rsiOut, if_pos ⟨le_refl m, le_refl m⟩, rsiAt,
      avgGainW_of_le closes m (le_refl m), avgLossW_of_le closes m (le_refl m)]
  · rw [if_neg hm, rsiOut, if_neg (by omega)]

/-- Loop invariant of the main `computeRSI` fold. -/
lemma rsiFold_eq (closes : List ℚ) (period : ℕ)
    (hn : period + 1 ≤ closes.length) (k : ℕ) (hk : k ≤ closes.length - (period + 1)) :
    (List.range' (period + 1) k).foldl (rsiStep closes period)
        (initAvgGain closes period, initAvgLoss closes period,
          (List.replicate closes.length 0).set period
            (rsiOf (initAvgGain closes period) (initAvgLoss closes period))) =
      (avgGainW closes period (period + k), avgLossW closes period (period + k),
        (List.range closes.length).map (rsiOut closes period (period + k))) := by
  induction k with
  | zero =>
      rw [List.range'_zero, List.foldl_nil, Nat.add_zero,
        avgGainW_of_le closes period (le_refl period),
        avgLossW_of_le closes period (le_refl period),
        rsiInit_eq_map closes period hn]
  | succ k ih =>
      have hk' : k ≤ closes.length - (period + 1) := by omega
      have hidx : period + 1 + k = period + k + 1 := by omega
      have hadd : period + (k + 1) = period + k + 1 := by omega
      have hi : period + k + 1 < closes.length := by omega
      have hrange : List.range' (period + 1) (k + 1) =
          List.range' (period + 1) k ++ [period + 1 + k] := by
        have h := @List.range'_concat 1 (period + 1) k
        simpa using h
      have hg : avgGainW closes period (period + k + 1) =
          (avgGainW closes period (period + k) * ((period : ℚ) - 1) +
            gainAt closes (period + k + 1)) / (period : ℚ) := by
        rw [avgGainW, if_neg (by omega)]
      have hl : avgLossW closes period (period + k + 1) =
          (avgLossW closes period (period + k) * ((period : ℚ) - 1) +
            lossAt closes (period + k + 1)) / (period : ℚ) := by
        rw [avgLossW, if_neg (by omega)]
      rw [hrange, List.foldl_append, ih hk', List.foldl_cons, List.foldl_nil, hidx, hadd]
      simp only [rsiStep]
      rw [set_map_range _ _ _ _ hi, hg, hl, Prod.mk.injEq, Prod.mk.injEq]
      refine ⟨rfl, rfl, ?_⟩
      apply List.map_congr_left
      intro m hm
      by_cases hme : m = period + k + 1
      · subst hme
        rw [if_pos rfl, rsiOut, if_pos ⟨by omega, le_refl _⟩, rsiAt, hg, hl]
      · rw [if_neg hme, rsiOut, rsiOut]
        by_cases hcond : period ≤ m ∧ m ≤ period + k
        · rw [if_pos hcond, if_pos ⟨hcond.1, by omega⟩]
        · rw [if_neg hcond, if_neg (by omega)]

/-- `computeRSI` on a sufficiently long series is pointwise `rsiOut`. -/
lemma computeRSI_eq_map (closes : List ℚ) (period : ℕ) (hn : period + 1 ≤ closes.length) :
    computeRSI closes period =
      (List.range closes.length).map (rsiOut closes period (closes.length - 1)) := by
  rw [computeRSI, if_neg (not_lt.mpr hn)]
  have h := rsiFold_eq closes period hn (closes.length - (period + 1)) (le_refl _)
  have hup : period + (closes.length - (period + 1)) = closes.length - 1 := by omega
  rw [hup] at h
  simp only [h]

lemma computeRSI_getD (closes : List ℚ) (period : ℕ) (hn : period + 1 ≤ closes.length)
    {i : ℕ} (hi : i < closes.length) :
    (computeRSI closes period).getD i 0 = rsiOut closes period (closes.length - 1) i := by
  rw [computeRSI_eq_map closes period hn, List.getD_eq_getElem?_getD,
    List.getElem?_map, List.getElem?_range hi]
  rfl

lemma computeRSI_length (closes : List ℚ) (period : ℕ) :
    (computeRSI closes period).length = closes.length := by
  by_cases h : closes.length < period + 1
  · rw [computeRSI, if_pos h, List.length_replicate]
  · rw [computeRSI_eq_map closes period (not_lt.mp h), List.length_map, List.length_range]

lemma initAvgGain_nonneg (closes : List ℚ) (period : ℕ) :
    0 ≤ initAvgGain closes period := by
  apply div_nonneg _ (by positivity)
  apply List.sum_nonneg
  intro x hx
  obtain ⟨j, _, rfl⟩ := List.mem_map.mp hx
  dsimp only
  split
  · linarith
  · exact le_refl 0

lemma initAvgLoss_nonneg (closes : List ℚ) (period : ℕ) :
    0 ≤ initAvgLoss closes period := by
  apply div_nonneg _ (by positivity)
  apply List.sum_nonneg
  intro x hx
  obtain ⟨j, _, rfl⟩ := List.mem_map.mp hx
  dsimp only
  split
  · exact le_refl 0
  · exact abs_nonneg _

lemma gainAt_nonneg (closes : List ℚ) (i : ℕ) : 0 ≤ gainAt closes i := by
  rw [gainAt]
  split
  · linarith
  · exact le_refl 0

lemma lossAt_nonneg (closes : List ℚ) (i : ℕ) : 0 ≤ lossAt closes i := by
  rw [lossAt]
  split
  · exact abs_nonneg _
  · exact le_refl 0

lemma avgGainW_nonneg (closes : List ℚ) (period : ℕ) (hp : 1 ≤ period) (i : ℕ) :
    0 ≤ avgGainW closes period i := by
  induction i with
  | zero => exact initAvgGain_nonneg closes period
  | succ i ih =>
      rw [avgGainW]
      split
      · exact initAvgGain_nonneg closes period
      · have hp' : (1 : ℚ) ≤ (period : ℚ) := by exact_mod_cast hp
        have := gainAt_nonneg closes (i + 1)
        apply div_nonneg _ (by positivity)
        have : 0 ≤ avgGainW closes period i * ((period : ℚ) - 1) :=
          mul_nonneg ih (by linarith)
        linarith [gainAt_nonneg closes (i + 1)]

lemma avgLossW_nonneg (closes : List ℚ) (period : ℕ) (hp : 1 ≤ period) (i : ℕ) :
    0 ≤ avgLossW closes period i := by
  induction i with
  | zero => exact initAvgLoss_nonneg closes period
  | succ i ih =>
      rw [avgLossW]
      split
      · exact initAvgLoss_nonneg closes period
      · have hp' : (1 : ℚ) ≤ (period : ℚ) := by exact_mod_cast hp
        apply div_nonneg _ (by positivity)
        have : 0 ≤ avgLossW closes period i * ((period : ℚ) - 1) :=
          mul_nonneg ih (by linarith)
        linarith [lossAt_nonneg closes (i + 1)]

/-- The RSI formula lies in `[0, 100]` whenever the smoothed averages are
nonnegative. -/
lemma rsiOf_bounds {g l : ℚ} (hg : 0 ≤ g) (hl : 0 ≤ l) :
    0 ≤ rsiOf g l ∧ rsiOf g l ≤ 100 := by
  rw [rsiOf]
  by_cases hl0 : l = 0
  · rw [if_pos hl0]
    norm_num
  · rw [if_neg hl0]
    have hlpos : 0 < l := lt_of_le_of_ne hl (Ne.symm hl0)
    have hrs : 0 ≤ g / l := div_nonneg hg hl
    have h1 : (1 : ℚ) ≤ 1 + g / l := by linarith
    have hq1 : 0 < 100 / (1 + g / l) := div_pos (by norm_num) (by linarith)
    have hq2 : 100 / (1 + g / l) ≤ 100 := div_le_self (by norm_num) h1
    constructor <;> linarith

lemma jsOr_zero (v : ℚ) : jsOr v 0 = v := by
  rw [jsOr]
  split
  · exact (‹v = 0›).symm
  · rfl

lemma macdLine_length (closes : List ℚ) : (macdLine closes).length = closes.length := by
  rw [macdLine, List.length_map, List.length_range]

lemma signalLine_length (closes : List ℚ) : (signalLine closes).length = closes.length := by
  rw [signalLine, computeEMA_length, List.length_map, macdLine_length]

lemma histogramLine_length (closes : List ℚ) :
    (histogramLine closes).length = closes.length := by
  rw [histogramLine, List.length_map, List.length_range, macdLine_length]

/-- Pointwise: `histogram[i] = macd[i] - signal[i]` (the `|| 0` fallback is
the identity on rationals). -/
lemma histogramLine_getD (closes : List ℚ) {i : ℕ} (hi : i < closes.length) :
    (histogramLine closes).getD i 0 =
      (macdLine closes).getD i 0 - (signalLine closes).getD i 0 := by
  rw [histogramLine, List.getD_eq_getElem?_getD, List.getElem?_map,
    List.getElem?_range (by rwa [macdLine_length])]
  simp [jsOr_zero]

lemma bbUpper_getD (sqrtFn : ℚ → ℚ) (closes : List ℚ) (period : ℕ) (mult : ℚ)
    {i : ℕ} (hi : i < closes.length) :
    (bbUpper sqrtFn closes period mult).getD i 0 = bbUpperAt sqrtFn closes period mult i := by
  rw [bbUpper, List.getD_eq_getElem?_getD, List.getElem?_map, List.getElem?_range hi]
  rfl

lemma bbLower_getD (sqrtFn : ℚ → ℚ) (closes : List ℚ) (period : ℕ) (mult : ℚ)
    {i : ℕ} (hi : i < closes.length) :
    (bbLower sqrtFn closes period mult).getD i 0 = bbLowerAt sqrtFn closes period mult i := by
  rw [bbLower, List.getD_eq_getElem?_getD, List.getElem?_map, List.getElem?_range hi]
  rfl

lemma bbUpper_length (sqrtFn : ℚ → ℚ) (closes : List ℚ) (period : ℕ) (mult : ℚ) :
    (bbUpper sqrtFn closes period mult).length = closes.length := by
  rw [bbUpper, List.length_map, List.length_range]

lemma bbLower_length (sqrtFn : ℚ → ℚ) (closes : List ℚ) (period : ℕ) (mult : ℚ) :
    (bbLower sqrtFn closes period mult).length = closes.length := by
  rw [bbLower, List.length_map, List.length_range]

/-! ### Flat-series facts -/

lemma getD_eq_of_flat {closes : List ℚ} {c : ℚ} (hc : ∀ x ∈ closes, x = c)
    {i : ℕ} (hi : i < closes.length) : closes.getD i 0 = c := by
  rw [List.getD_eq_getElem closes 0 hi]
  exact hc _ (List.getElem_mem hi)

/-- On a flat series the Bollinger window is a constant slice of length
`period`, so mean is `c` and variance is `0`. -/
lemma flat_slice (closes : List ℚ) (c : ℚ) (hc : ∀ x ∈ closes, x = c)
    (period : ℕ) {i : ℕ} (hi : i < closes.length) (hip : period ≤ i + 1) :
    (closes.drop (i + 1 - period)).take period = List.replicate period c := by
  rw [List.eq_replicate_iff]
  constructor
  · rw [List.length_take, List.length_drop]
    have : period ≤ closes.length - (i + 1 - period) := by omega
    exact min_eq_left this
  · intro b hb
    exact hc b (List.mem_of_mem_drop (List.mem_of_mem_take hb))

lemma flat_bb_mean (period : ℕ) (hp : 1 ≤ period) (c : ℚ) :
    (List.replicate period c).sum / (period : ℚ) = c := by
  have hper : (period : ℚ) ≠ 0 := Nat.cast_ne_zero.mpr (by omega)
  rw [List.sum_replicate, nsmul_eq_mul, mul_div_cancel_left₀ _ hper]

lemma flat_bb_variance (period : ℕ) (c : ℚ) :
    ((List.replicate period c).map (fun b => (b - c) ^ 2)).sum / (period : ℚ) = 0 := by
  have h0 : ((c : ℚ) - c) ^ 2 = 0 := by simp
  rw [List.map_replicate, h0, List.sum_replicate, smul_zero, zero_div]

/-- Flat series: every in-window upper band value is the common price. -/
lemma bbUpper_flat (sqrtFn : ℚ → ℚ) (hs : sqrtFn 0 = 0) (closes : List ℚ) (c : ℚ)
    (hc : ∀ x ∈ closes, x = c) (period : ℕ) (hp : 1 ≤ period) (mult : ℚ)
    {i : ℕ} (hik : period - 1 ≤ i) (hi : i < closes.length) :
    (bbUpper sqrtFn closes period mult).getD i 0 = c := by
  have hneg : ¬ (i < period - 1) := not_lt.mpr hik
  rw [bbUpper_getD sqrtFn closes period mult hi, bbUpperAt, if_neg hneg,
    flat_slice closes c hc period hi (by omega)]
  simp only [flat_bb_mean period hp c, flat_bb_variance period c, hs]
  ring

/-- Flat series: every in-window lower band value is the common price. -/
lemma bbLower_flat (sqrtFn : ℚ → ℚ) (hs : sqrtFn 0 = 0) (closes : List ℚ) (c : ℚ)
    (hc : ∀ x ∈ closes, x = c) (period : ℕ) (hp : 1 ≤ period) (mult : ℚ)
    {i : ℕ} (hik : period - 1 ≤ i) (hi : i < closes.length) :
    (bbLower sqrtFn closes period mult).getD i 0 = c := by
  have hneg : ¬ (i < period - 1) := not_lt.mpr hik
  rw [bbLower_getD sqrtFn closes period mult hi, bbLowerAt, if_neg hneg,
    flat_slice closes c hc period hi (by omega)]
  simp only [flat_bb_mean period hp c, flat_bb_variance period c, hs]
  ring

lemma gainAt_flat {closes : List ℚ} {c : ℚ} (hc : ∀ x ∈ closes, x = c)
    {i : ℕ} (hi : i < closes.length) : gainAt closes i = 0 := by
  rw [gainAt, getD_eq_of_flat hc hi, getD_eq_of_flat hc (by omega : i - 1 < closes.length)]
  simp

lemma lossAt_flat {closes : List ℚ} {c : ℚ} (hc : ∀ x ∈ closes, x = c)
    {i : ℕ} (hi : i < closes.length) : lossAt closes i = 0 := by
  rw [lossAt, getD_eq_of_flat hc hi, getD_eq_of_flat hc (by omega : i - 1 < closes.length)]
  simp

lemma initAvgGain_flat {closes : List ℚ} {c : ℚ} (hc : ∀ x ∈ closes, x = c)
    {period : ℕ} (hn : period + 1 ≤ closes.length) : initAvgGain closes period = 0 := by
  rw [initAvgGain]
  have hmap : (List.range period).map (fun j =>
      let change := closes.getD (j + 1) 0 - closes.getD j 0
      if 0 < change then change else 0) = (List.range period).map (fun _ => 0) := by
    apply List.map_congr_left
    intro j hj
    have hjp : j < period := List.mem_range.mp hj
    rw [getD_eq_of_flat hc (by omega : j + 1 < closes.length),
      getD_eq_of_flat hc (by omega : j < closes.length)]
    simp
  rw [hmap, List.map_const', List.sum_replicate, smul_zero, zero_div]

lemma initAvgLoss_flat {closes : List ℚ} {c : ℚ} (hc : ∀ x ∈ closes, x = c)
    {period : ℕ} (hn : period + 1 ≤ closes.length) : initAvgLoss closes period = 0 := by
  rw [initAvgLoss]
  have hmap : (List.range period).map (fun j =>
      let change := closes.getD (j + 1) 0 - closes.getD j 0
      if 0 < change then 0 else |change|) = (List.range period).map (fun _ => 0) := by
    apply List.map_congr_left
    intro j hj
    have hjp : j < period := List.mem_range.mp hj
    rw [getD_eq_of_flat hc (by omega : j + 1 < closes.length),
      getD_eq_of_flat hc (by omega : j < closes.length)]
    simp
  rw [hmap, List.map_const', List.sum_replicate, smul_zero, zero_div]

lemma avgGainW_flat {closes : List ℚ} {c : ℚ} (hc : ∀ x ∈ closes, x = c)
    {period : ℕ} (hn : period + 1 ≤ closes.length) {i : ℕ} (hi : i < closes.length) :
    avgGainW closes period i = 0 := by
  induction i with
  | zero => exact initAvgGain_flat hc hn
  | succ i ih =>
      rw [avgGainW]
      split
      · exact initAvgGain_flat hc hn
      · rw [ih (by omega), gainAt_flat hc hi, zero_mul, zero_add, zero_div]

lemma avgLossW_flat {closes : List ℚ} {c : ℚ} (hc : ∀ x ∈ closes, x = c)
    {period : ℕ} (hn : period + 1 ≤ closes.length) {i : ℕ} (hi : i < closes.length) :
    avgLossW closes period i = 0 := by
  induction i with
  | zero => exact initAvgLoss_flat hc hn
  | succ i ih =>
      rw [avgLossW]
      split
      · exact initAvgLoss_flat hc hn
      · rw [ih (by omega), lossAt_flat hc hi, zero_mul, zero_add, zero_div]

/-- Flat series: every written RSI value is 100 (the `avgLoss === 0` branch). -/
lemma computeRSI_flat {closes : List ℚ} {c : ℚ} (hc : ∀ x ∈ closes, x = c)
    {period : ℕ} (hn : period + 1 ≤ closes.length)
    {i : ℕ} (hip : period ≤ i) (hi : i < closes.length) :
    (computeRSI closes period).getD i 0 = 100 := by
  rw [computeRSI_getD closes period hn hi, rsiOut,
    if_pos ⟨hip, by omega⟩, rsiAt, avgLossW_flat hc hn hi, rsiOf, if_pos rfl]

lemma ite_lt_eq_max (a b : ℚ) : (if a < b then b else a) = max a b := by
  by_cases h : a < b
  · rw [if_pos h, max_eq_right (le_of_lt h)]
  · rw [if_neg h, max_eq_left (not_lt.mp h)]

lemma ddMaxSpec_nonneg (p : ℚ) (l : List ℚ) (hp : 0 < p) (hl : ∀ x ∈ l, 0 < x) :
    0 ≤ ddMaxSpec p l := by
  induction l generalizing p with
  | nil => exact le_refl 0
  | cons c cs ih =>
      rw [ddMaxSpec]
      have hc : 0 < c := hl c (List.mem_cons_self c cs)
      have hpc : 0 < max p c := lt_max_of_lt_left hp
      have hdd : 0 ≤ (max p c - c) / max p c * 100 := by
        apply mul_nonneg _ (by norm_num)
        apply div_nonneg _ (le_of_lt hpc)
        have := le_max_right p c
        linarith
      exact le_max_of_le_left hdd

/-- Invariant of the drawdown fold: the accumulated `maxDd` is the max of
the incoming accumulator and the spec value over the remaining closes. -/
lemma ddFold_eq (l : List ℚ) (p m : ℚ) (hm : 0 ≤ m) :
    (l.foldl ddStep (p, m)).2 = max m (ddMaxSpec p l) := by
  induction l generalizing p m with
  | nil =>
      rw [List.foldl_nil, ddMaxSpec]
      exact (max_eq_left hm).symm
  | cons c cs ih =>
      rw [List.foldl_cons, ddMaxSpec]
      have hstep : ddStep (p, m) c =
          (max p c, max m ((max p c - c) / max p c * 100)) := by
        rw [ddStep]
        simp only [ite_lt_eq_max]
      rw [hstep, ih _ _ (le_max_of_le_left hm), max_assoc]

lemma maxDrawdown_eq_spec (closes : List ℚ) (h2 : 1 ≤ closes.length)
    (hpos : ∀ x ∈ closes, 0 < x) :
    maxDrawdown closes = ddMaxSpec (closes.getD 0 0) closes := by
  rw [maxDrawdown, ddFold_eq closes (closes.getD 0 0) 0 (le_refl 0)]
  apply max_eq_right
  apply ddMaxSpec_nonneg
  · rw [List.getD_eq_getElem closes 0 (by omega)]
    exact hpos _ (List.getElem_mem (by omega))
  · exact hpos

lemma ddMaxSpec_lt_100 (p : ℚ) (l : List ℚ) (hp : 0 < p) (hl : ∀ x ∈ l, 0 < x) :
    ddMaxSpec p l < 100 := by
  induction l generalizing p with
  | nil => norm_num [ddMaxSpec]
  | cons c cs ih =>
      rw [ddMaxSpec]
      have hc : 0 < c := hl c (List.mem_cons_self c cs)
      have hpc : 0 < max p c := lt_max_of_lt_left hp
      have hdd : (max p c - c) / max p c * 100 < 100 := by
        have hq : (max p c - c) / max p c < 1 := by
          rw [div_lt_one hpc]
          linarith
        linarith
      exact max_lt hdd (ih (max p c) hpc (fun x hx => hl x (List.mem_cons_of_mem c hx)))

lemma ddMaxSpec_eq_zero_iff (p : ℚ) (l : List ℚ) (hp : 0 < p) (hl : ∀ x ∈ l, 0 < x) :
    (ddMaxSpec p l = 0 ↔ List.Chain (· ≤ ·) p l) := by
  induction l generalizing p with
  | nil => simp [ddMaxSpec]
  | cons c cs ih =>
      rw [ddMaxSpec, List.chain_cons]
      have hc : 0 < c := hl c (List.mem_cons_self c cs)
      have hpc : 0 < max p c := lt_max_of_lt_left hp
      have hdd : 0 ≤ (max p c - c) / max p c * 100 := by
        apply mul_nonneg _ (by norm_num)
        apply div_nonneg _ (le_of_lt hpc)
        linarith [le_max_right p c]
      have hrest : 0 ≤ ddMaxSpec (max p c) cs :=
        ddMaxSpec_nonneg _ _ hpc (fun x hx => hl x (List.mem_cons_of_mem c hx))
      constructor
      · intro h
        have hmax := max_eq_iff.mp h
        have h1 : (max p c - c) / max p c * 100 = 0 := by
          rcases hmax with ⟨h1, h2⟩ | ⟨h1, h2⟩
          · exact h1
          · linarith
        have h2 : ddMaxSpec (max p c) cs = 0 := by
          rcases hmax with ⟨ha, hb⟩ | ⟨ha, hb⟩
          · linarith
          · exact ha
        have hple : p ≤ c := by
          by_contra hgt
          push_neg at hgt
          have hmaxp : max p c = p := max_eq_left (le_of_lt hgt)
          rw [hmaxp] at h1
          have : (p - c) / p ≠ 0 := by
            apply div_ne_zero _ (ne_of_gt hp)
            intro hz
            apply absurd hgt
            push_neg
            linarith [sub_eq_zero.mp hz]
          apply absurd h1
          intro habs
          apply this
          rcases mul_eq_zero.mp habs with hq | hq
          · exact hq
          · norm_num at hq
        have hmaxc : max p c = c := max_eq_right hple
        rw [hmaxc] at h2
        refine ⟨hple, ?_⟩
        exact (ih c hc (fun x hx => hl x (List.mem_cons_of_mem c hx))).mp h2
      · rintro ⟨hpc', hchain⟩
        have hmaxc : max p c = c := max_eq_right hpc'
        rw [hmaxc, sub_self, zero_div, zero_mul]
        rw [(ih c hc (fun x hx => hl x (List.mem_cons_of_mem c hx))).mpr hchain]
        exact max_self 0

/-- Against a null right-hand cell the comparator never orders the left
row later, whatever the cell's type and whatever the locale collation. -/
lemma rowCompare_none_right (strCmp : ℚ ⊕ String → ℚ ⊕ String → ℚ) (dir : Bool) :
    ∀ av, rowCompare strCmp dir av none ≤ 0
  | none => by norm_num [rowCompare]
  | some (Sum.inl _) => by norm_num [rowCompare]
  | some (Sum.inr _) => by norm_num [rowCompare]

/-- A null left-hand cell against any non-null cell compares as `1`. -/
lemma rowCompare_none_left (strCmp : ℚ ⊕ String → ℚ ⊕ String → ℚ) (dir : Bool) :
    ∀ v, rowCompare strCmp dir none (some v) = 1
  | Sum.inl _ => rfl
  | Sum.inr _ => rfl

/-- Inserting a row into a nulls-last list keeps it nulls-last: the two
null-handling branches of the comparator decide every comparison that a
null-keyed row takes part in, before the value types are even inspected,
so no assumption on `strCmp` (and hence on the column's value types) is
needed. -/
lemma orderedInsert_nullsLast {β : Type} (strCmp : ℚ ⊕ String → ℚ ⊕ String → ℚ)
    (dir : Bool) (x : Option (ℚ ⊕ String) × β) (l : List (Option (ℚ ⊕ String) × β))
    (hl : List.Pairwise (fun a b => a.1 = none → b.1 = none) l) :
    List.Pairwise (fun a b => a.1 = none → b.1 = none)
      (List.orderedInsert (fun a b => rowCompare strCmp dir a.1 b.1 ≤ 0) x l) := by
  induction l with
  | nil => simp
  | cons y ys ih =>
      obtain ⟨hy, hys⟩ := List.pairwise_cons.mp hl
      by_cases hr : rowCompare strCmp dir x.1 y.1 ≤ 0
      · rw [List.orderedInsert, if_pos hr]
        refine List.pairwise_cons.mpr ⟨?_, hl⟩
        intro z hz hxnone
        have hynone : y.1 = none := by
          by_contra hyn
          obtain ⟨v, hv⟩ := Option.ne_none_iff_exists'.mp hyn
          rw [hxnone, hv, rowCompare_none_left] at hr
          norm_num at hr
        rcases List.mem_cons.mp hz with rfl | hz2
        · exact hynone
        · exact hy z hz2 hynone
      · rw [List.orderedInsert, if_neg hr]
        refine List.pairwise_cons.mpr ⟨?_, ih hys⟩
        intro z hz hynone
        rcases (List.mem_orderedInsert _).mp hz with hzx | hz2
        · exact absurd (by rw [hynone]; exact rowCompare_none_right strCmp dir x.1) hr
        · exact hy z hz2 hynone

/-- The stable-sort model output is nulls-last for every array, direction
and locale collation. -/
lemma sortRows_nullsLast {β : Type} (strCmp : ℚ ⊕ String → ℚ ⊕ String → ℚ)
    (dir : Bool) (data : List (Option (ℚ ⊕ String) × β)) :
    List.Pairwise (fun a b => a.1 = none → b.1 = none) (sortRows strCmp dir data) := by
  rw [sortRows]
  induction data with
  | nil => simp
  | cons a l ih =>
      rw [List.insertionSort]
      exact orderedInsert_nullsLast strCmp dir a _ ih

/-! ### Auxiliary sum identities -/

lemma list_sum_range (f : ℕ → ℚ) (n : ℕ) :
    ((List.range n).map f).sum = ∑ j ∈ Finset.range n, f j := by
  induction n with
  | zero => simp
  | succ n ih =>
      rw [List.range_succ, List.map_append, List.sum_append, Finset.sum_range_succ, ih]
      simp

lemma take_sum (closes : List ℚ) (p : ℕ) (hp : p ≤ closes.length) :
    (closes.take p).sum = ∑ j ∈ Finset.range p, closes.getD j 0 := by
  induction p with
  | zero => simp
  | succ p ih =>
      have hpl : p < closes.length := by omega
      rw [List.take_succ, List.sum_append, Finset.sum_range_succ, ih (by omega)]
      have hsome : closes[p]? = some closes[p] := List.getElem?_eq_some.mpr ⟨hpl, rfl⟩
      rw [hsome, List.getD_eq_getElem closes 0 hpl]
      simp

/-- The SMA seed equals the mean of the first `period` closes. -/
lemma initSMA_eq_take (closes : List ℚ) (period : ℕ) (hp : period ≤ closes.length) :
    initSMA closes period = (closes.take period).sum / (period : ℚ) := by
  rw [initSMA, take_sum closes period hp, list_sum_range,
    Finset.sum_range_reflect (fun j => closes.getD j 0) period]

/-! ### Claim theorems -/

/-- C6: for a series of length at least `period` (`period ≥ 1`), `computeEMA`'s
output at index `period-1` is the simple moving average of the first `period`
values, and at each later in-range index `i` it is
`closes[i]*k + prev*(1-k)` with `k = 2/(period+1)` and `prev` the output at
`i-1`. -/
theorem C6_ema_recurrence (closes : List ℚ) (period : ℕ)
    (hp : 1 ≤ period) (hlen : period ≤ closes.length) :
    (computeEMA closes period).getD (period - 1) 0 =
        (closes.take period).sum / (period : ℚ) ∧
      ∀ i, period ≤ i → i < closes.length →
        (computeEMA closes period).getD i 0 =
          closes.getD i 0 * (2 / ((period : ℚ) + 1)) +
            (computeEMA closes period).getD (i - 1) 0 * (1 - 2 / ((period : ℚ) + 1)) := by
  constructor
  · rw [computeEMA_getD closes period (by omega), emaOut, if_neg (by omega),
      emaAt_of_le closes period (le_refl _), initSMA_eq_take closes period hlen]
  · intro i hpi hi
    obtain ⟨m, rfl⟩ : ∃ m, i = m + 1 := ⟨i - 1, by omega⟩
    rw [computeEMA_getD closes period hi, computeEMA_getD closes period (by omega),
      emaOut, emaOut, if_neg (by omega), if_neg (by omega), Nat.add_sub_cancel,
      emaAt, if_neg (by omega)]

/-- C6 witness: period 2 over three bars. -/
theorem C6_ema_recurrence_witness :
    1 ≤ 2 ∧ 2 ≤ ([1, 2, 3] : List ℚ).length ∧
      ((computeEMA [1, 2, 3] 2).getD (2 - 1) 0 =
          (([1, 2, 3] : List ℚ).take 2).sum / (2 : ℚ) ∧
        ∀ i, 2 ≤ i → i < ([1, 2, 3] : List ℚ).length →
          (computeEMA [1, 2, 3] 2).getD i 0 =
            ([1, 2, 3] : List ℚ).getD i 0 * (2 / ((2 : ℚ) + 1)) +
              (computeEMA [1, 2, 3] 2).getD (i - 1) 0 * (1 - 2 / ((2 : ℚ) + 1))) :=
  ⟨by decide, by decide, C6_ema_recurrence [1, 2, 3] 2 (by decide) (by decide)⟩

/-- C2: for a series of length at least `period+1`, every RSI value at an
in-range index `i ≥ period` is `100 - 100/(1+RS)` with `RS` the quotient of
the Wilder-smoothed average gain and loss (seeded by the simple averages of
the first `period` changes), and it is `100` whenever the smoothed average
loss is `0`. -/
theorem C2_rsi_wilder (closes : List ℚ) (period : ℕ) (i : ℕ)
    (hn : period + 1 ≤ closes.length) (hpi : period ≤ i) (hi : i < closes.length) :
    (computeRSI closes period).getD i 0 =
      (if avgLossW closes period i = 0 then 100
        else 100 - 100 / (1 + avgGainW closes period i / avgLossW closes period i)) := by
  rw [computeRSI_getD closes period hn hi, rsiOut, if_pos ⟨hpi, by omega⟩, rsiAt, rsiOf]

/-- C2 witness: a concrete instance (period 2, four bars). -/
theorem C2_rsi_wilder_witness :
    2 + 1 ≤ ([1, 3, 2, 4] : List ℚ).length ∧ 2 ≤ 3 ∧ 3 < ([1, 3, 2, 4] : List ℚ).length ∧
      (computeRSI [1, 3, 2, 4] 2).getD 3 0 =
        (if avgLossW [1, 3, 2, 4] 2 3 = 0 then 100
          else 100 - 100 / (1 + avgGainW [1, 3, 2, 4] 2 3 / avgLossW [1, 3, 2, 4] 2 3)) :=
  ⟨by decide, by decide, by decide,
    C2_rsi_wilder [1, 3, 2, 4] 2 3 (by decide) (by decide) (by decide)⟩

/-- C4: with `period ≥ 1` and at least `period+1` bars, every RSI value at an
in-range index `i ≥ period` lies in `[0, 100]` (so it never exceeds 100, in
particular on strictly increasing series). -/
theorem C4_rsi_bounded (closes : List ℚ) (period : ℕ) (i : ℕ)
    (hp : 1 ≤ period) (hn : period + 1 ≤ closes.length)
    (hpi : period ≤ i) (hi : i < closes.length) :
    0 ≤ (computeRSI closes period).getD i 0 ∧ (computeRSI closes period).getD i 0 ≤ 100 := by
  rw [computeRSI_getD closes period hn hi, rsiOut, if_pos ⟨hpi, by omega⟩, rsiAt]
  exact rsiOf_bounds (avgGainW_nonneg closes period hp i) (avgLossW_nonneg closes period hp i)

/-- C4 witness: a concrete strictly increasing series. -/
theorem C4_rsi_bounded_witness :
    1 ≤ 2 ∧ 2 + 1 ≤ ([1, 2, 3, 4] : List ℚ).length ∧ 2 ≤ 3 ∧
        3 < ([1, 2, 3, 4] : List ℚ).length ∧
      (0 ≤ (computeRSI [1, 2, 3, 4] 2).getD 3 0 ∧
        (computeRSI [1, 2, 3, 4] 2).getD 3 0 ≤ 100) :=
  ⟨by decide, by decide, by decide, by decide,
    C4_rsi_bounded [1, 2, 3, 4] 2 3 (by decide) (by decide) (by decide) (by decide)⟩

/-- C5: the histogram returned by `computeMACD` is the MACD line minus the
Signal line at every in-range index, and between two adjacent bars the
histogram changes sign exactly when the MACD line crosses the Signal line. -/
theorem C5_macd_histogram (closes : List ℚ) (i : ℕ) (h1 : 1 ≤ i) (hi : i < closes.length) :
    (computeMACD closes).2.2.getD i 0 =
        (computeMACD closes).1.getD i 0 - (computeMACD closes).2.1.getD i 0 ∧
      ((((computeMACD closes).2.2.getD (i - 1) 0 < 0 ∧
            0 < (computeMACD closes).2.2.getD i 0) ∨
          (0 < (computeMACD closes).2.2.getD (i - 1) 0 ∧
            (computeMACD closes).2.2.getD i 0 < 0)) ↔
        (((computeMACD closes).1.getD (i - 1) 0 < (computeMACD closes).2.1.getD (i - 1) 0 ∧
            (computeMACD closes).2.1.getD i 0 < (computeMACD closes).1.getD i 0) ∨
          ((computeMACD closes).2.1.getD (i - 1) 0 < (computeMACD closes).1.getD (i - 1) 0 ∧
            (computeMACD closes).1.getD i 0 < (computeMACD closes).2.1.getD i 0))) := by
  have hm : (computeMACD closes).1 = macdLine closes := rfl
  have hs : (computeMACD closes).2.1 = signalLine closes := rfl
  have hh : (computeMACD closes).2.2 = histogramLine closes := rfl
  rw [hm, hs, hh, histogramLine_getD closes hi, histogramLine_getD closes (by omega)]
  refine ⟨rfl, ?_⟩
  rw [sub_neg, sub_neg, sub_pos, sub_pos]

/-- C5 witness: a concrete three-bar series at the middle index. -/
theorem C5_macd_histogram_witness :
    1 ≤ 1 ∧ 1 < ([1, 2, 3] : List ℚ).length ∧
      ((computeMACD [1, 2, 3]).2.2.getD 1 0 =
          (computeMACD [1, 2, 3]).1.getD 1 0 - (computeMACD [1, 2, 3]).2.1.getD 1 0 ∧
        ((((computeMACD [1, 2, 3]).2.2.getD 0 0 < 0 ∧
              0 < (computeMACD [1, 2, 3]).2.2.getD 1 0) ∨
            (0 < (computeMACD [1, 2, 3]).2.2.getD 0 0 ∧
              (computeMACD [1, 2, 3]).2.2.getD 1 0 < 0)) ↔
          (((computeMACD [1, 2, 3]).1.getD 0 0 < (computeMACD [1, 2, 3]).2.1.getD 0 0 ∧
              (computeMACD [1, 2, 3]).2.1.getD 1 0 < (computeMACD [1, 2, 3]).1.getD 1 0) ∨
            ((computeMACD [1, 2, 3]).2.1.getD 0 0 < (computeMACD [1, 2, 3]).1.getD 0 0 ∧
              (computeMACD [1, 2, 3]).1.getD 1 0 < (computeMACD [1, 2, 3]).2.1.getD 1 0)))) :=
  ⟨by decide, by decide, C5_macd_histogram [1, 2, 3] 1 (by decide) (by decide)⟩

/-- C1 counterexample: the leading not-yet-computable positions are not
marked absent — they are present entries holding the sentinel number 0
(`computeEMA` with period 2 at index 0, `computeRSI` with period 2 at
index 0, `computeBB`'s upper band with period 2 at index 0). -/
theorem C1_counterexample :
    (computeEMA [1, 2, 3] 2)[0]? = some 0 ∧
      (computeRSI [1, 2, 3] 2)[0]? = some 0 ∧
      (bbUpper (fun _ => 1) [1, 2, 3] 2 2)[0]? = some 0 := by
  decide

/-- C1 amended: every rolling function returns a sequence of exactly the
input's length, but the leading not-yet-computable positions are filled with
the sentinel number 0 (indices below `period-1` for EMA and Bollinger,
below `period` for RSI), not with an absent marker. -/
theorem C1_amended (closes : List ℚ) (period : ℕ) (mult : ℚ) (sqrtFn : ℚ → ℚ) :
    ((computeEMA closes period).length = closes.length ∧
      (computeRSI closes period).length = closes.length ∧
      (bbUpper sqrtFn closes period mult).length = closes.length ∧
      (bbLower sqrtFn closes period mult).length = closes.length) ∧
    (∀ i, i < period - 1 → i < closes.length → (computeEMA closes period).getD i 0 = 0) ∧
    (∀ i, i < period → i < closes.length → (computeRSI closes period).getD i 0 = 0) ∧
    (∀ i, i < period - 1 → i < closes.length →
      (bbUpper sqrtFn closes period mult).getD i 0 = 0 ∧
        (bbLower sqrtFn closes period mult).getD i 0 = 0) := by
  refine ⟨⟨computeEMA_length closes period, computeRSI_length closes period,
      bbUpper_length sqrtFn closes period mult, bbLower_length sqrtFn closes period mult⟩,
    ?_, ?_, ?_⟩
  · intro i hip hi
    rw [computeEMA_getD closes period hi, emaOut, if_pos hip]
  · intro i hip hi
    by_cases hlen : closes.length < period + 1
    · rw [computeRSI, if_pos hlen, List.getD_eq_getElem?_getD, List.getElem?_replicate,
        if_pos hi]
      rfl
    · rw [computeRSI_getD closes period (by omega) hi, rsiOut, if_neg (by omega)]
  · intro i hip hi
    constructor
    · rw [bbUpper_getD sqrtFn closes period mult hi, bbUpperAt, if_pos hip]
    · rw [bbLower_getD sqrtFn closes period mult hi, bbLowerAt, if_pos hip]

/-- C1 amended witness: lengths and leading zeros at a concrete input. -/
theorem C1_amended_witness :
    (computeEMA [1, 2, 3] 2).length = ([1, 2, 3] : List ℚ).length ∧
      0 < 2 - 1 ∧ 0 < ([1, 2, 3] : List ℚ).length ∧
      (computeEMA [1, 2, 3] 2).getD 0 0 = 0 ∧
      (computeRSI [1, 2, 3] 2).getD 0 0 = 0 ∧
      (bbUpper (fun _ => 1) [1, 2, 3] 2 2).getD 0 0 = 0 :=
  ⟨(C1_amended [1, 2, 3] 2 2 (fun _ => 1)).1.1, by decide, by decide,
    (C1_amended [1, 2, 3] 2 2 (fun _ => 1)).2.1 0 (by decide) (by decide),
    (C1_amended [1, 2, 3] 2 2 (fun _ => 1)).2.2.1 0 (by decide) (by decide),
    ((C1_amended [1, 2, 3] 2 2 (fun _ => 1)).2.2.2 0 (by decide) (by decide)).1⟩

/-- C3 counterexample: on an all-flat 15-bar series, `computeRSI` returns
100 at the first computable index — the bullish extreme, not an
undefined/neutral value (the spec's §4.2 `avgLoss == 0 ⇒ 100` convention
wins over §8's "undefined/neutral"). -/
theorem C3_counterexample :
    (computeRSI (List.replicate 15 (5 : ℚ)) 14).getD 14 0 = 100 :=
  computeRSI_flat (c := 5) (fun x hx => List.eq_of_mem_replicate hx) (by simp)
    (le_refl 14) (by simp)

/-- C3 amended: on an all-flat series the Bollinger bands collapse onto the
window mean (upper = lower = the common price, width 0) and no division by
zero occurs (the Wilder average loss is identically 0, so `computeRSI`
takes the guarded `avgLoss === 0` branch) — but the RSI is 100, a
directional extreme, not neutral. -/
theorem C3_amended (sqrtFn : ℚ → ℚ) (closes : List ℚ) (c : ℚ) (period : ℕ) (mult : ℚ)
    (hs : sqrtFn 0 = 0) (hc : ∀ x ∈ closes, x = c) (hp : 1 ≤ period) :
    (∀ i, period - 1 ≤ i → i < closes.length →
      (bbUpper sqrtFn closes period mult).getD i 0 = c ∧
        (bbLower sqrtFn closes period mult).getD i 0 = c) ∧
    (period + 1 ≤ closes.length → ∀ i, i < closes.length →
      avgLossW closes period i = 0) ∧
    (period + 1 ≤ closes.length → ∀ i, period ≤ i → i < closes.length →
      (computeRSI closes period).getD i 0 = 100) := by
  refine ⟨?_, ?_, ?_⟩
  · intro i hik hi
    exact ⟨bbUpper_flat sqrtFn hs closes c hc period hp mult hik hi,
      bbLower_flat sqrtFn hs closes c hc period hp mult hik hi⟩
  · intro hn i hi
    exact avgLossW_flat hc hn hi
  · intro hn i hip hi
    exact computeRSI_flat hc hn hip hi

/-- C3 amended witness: a concrete flat series (four bars at 5, period 2). -/
theorem C3_amended_witness :
    (∀ x ∈ List.replicate 4 (5 : ℚ), x = 5) ∧ (1 : ℕ) ≤ 2 ∧
      (bbUpper (fun _ => 0) (List.replicate 4 (5 : ℚ)) 2 2).getD 1 0 = 5 ∧
      (computeRSI (List.replicate 4 (5 : ℚ)) 2).getD 2 0 = 100 :=
  ⟨by decide, by decide,
    ((C3_amended (fun _ => 0) (List.replicate 4 (5 : ℚ)) 5 2 2 rfl (by decide)
        (by decide)).1 1 (by decide) (by decide)).1,
    (C3_amended (fun _ => 0) (List.replicate 4 (5 : ℚ)) 5 2 2 rfl (by decide)
        (by decide)).2.2 (by decide) 2 (by decide) (by decide)⟩

/-- C7 counterexample: with fewer bars than the window, the indicator arrays
hold present numeric zeros at every position, not null/absent values. -/
theorem C7_counterexample :
    computeRSI [1, 2, 3] 14 = [0, 0, 0] ∧ computeEMA [1, 2] 200 = [0, 0] := by
  decide

/-- C7 amended: with insufficient history the computations are total (no
exception path exists) and return a full-length array whose every entry is
the sentinel number 0 — not a null/absent indicator value. -/
theorem C7_amended (closes : List ℚ) (period : ℕ) :
    (closes.length < period + 1 →
      computeRSI closes period = List.replicate closes.length 0) ∧
    (closes.length < period →
      computeEMA closes period = List.replicate closes.length 0) := by
  constructor
  · intro h
    rw [computeRSI, if_pos h]
  · intro h
    rw [computeEMA_eq_map]
    have hz : ∀ m ∈ List.range closes.length,
        emaOut closes period m = (fun _ => (0 : ℚ)) m := by
      intro m hm
      have := List.mem_range.mp hm
      rw [emaOut, if_pos (by omega)]
    rw [List.map_congr_left hz, List.map_const', List.length_range]

/-- C7 amended witness: 3 bars against RSI(14), 2 bars against EMA(200). -/
theorem C7_amended_witness :
    ([1, 2, 3] : List ℚ).length < 14 + 1 ∧ ([1, 2] : List ℚ).length < 200 ∧
      computeRSI [1, 2, 3] 14 = List.replicate 3 0 ∧
      computeEMA [1, 2] 200 = List.replicate 2 0 :=
  ⟨by decide, by decide, (C7_amended [1, 2, 3] 14).1 (by decide),
    (C7_amended [1, 2] 200).2 (by decide)⟩

/-- C8 (modelled from the spec; the confluence computation has no
implementation under the repository sources): a ticker whose seven factors
are all aligned bullish scores `7` with strength `"Strong"`, and a ticker
with no aligned factor scores `0` with strength `"Weak"`, for any
Moderate/Weak boundary `t ≥ 1`. -/
theorem C8_confluence (t : ℕ) (f : ConfluenceFactors) (ht : 1 ≤ t) :
    ((f.rsiA = true ∧ f.macdA = true ∧ f.maTrendA = true ∧ f.bollingerA = true ∧
        f.sentimentA = true ∧ f.sectorA = true ∧ f.volumeA = true) →
      confluenceScore f = 7 ∧ signalStrength t (confluenceScore f) = "Strong") ∧
    ((f.rsiA = false ∧ f.macdA = false ∧ f.maTrendA = false ∧ f.bollingerA = false ∧
        f.sentimentA = false ∧ f.sectorA = false ∧ f.volumeA = false) →
      confluenceScore f = 0 ∧ signalStrength t (confluenceScore f) = "Weak") := by
  obtain ⟨a, b, c, d, e, g, h⟩ := f
  constructor
  · rintro ⟨rfl, rfl, rfl, rfl, rfl, rfl, rfl⟩
    refine ⟨rfl, ?_⟩
    have h7 : confluenceScore ⟨true, true, true, true, true, true, true⟩ = 7 := rfl
    rw [h7, signalStrength, if_pos (by omega : (5 : ℕ) ≤ 7)]
  · rintro ⟨rfl, rfl, rfl, rfl, rfl, rfl, rfl⟩
    refine ⟨rfl, ?_⟩
    have h0 : confluenceScore ⟨false, false, false, false, false, false, false⟩ = 0 := rfl
    rw [h0, signalStrength, if_neg (by omega : ¬ (5 : ℕ) ≤ 0), if_neg (by omega : ¬ t ≤ 0)]

/-- C8 witness: boundary `t = 1` with the all-aligned and no-aligned records. -/
theorem C8_confluence_witness :
    (1 : ℕ) ≤ 1 ∧
      (confluenceScore ⟨true, true, true, true, true, true, true⟩ = 7 ∧
        signalStrength 1 (confluenceScore ⟨true, true, true, true, true, true, true⟩) =
          "Strong") ∧
      (confluenceScore ⟨false, false, false, false, false, false, false⟩ = 0 ∧
        signalStrength 1 (confluenceScore ⟨false, false, false, false, false, false, false⟩) =
          "Weak") :=
  ⟨by decide,
    (C8_confluence 1 ⟨true, true, true, true, true, true, true⟩ (by decide)).1
      ⟨rfl, rfl, rfl, rfl, rfl, rfl, rfl⟩,
    (C8_confluence 1 ⟨false, false, false, false, false, false, false⟩ (by decide)).2
      ⟨rfl, rfl, rfl, rfl, rfl, rfl, rfl⟩⟩

/-- C9 counterexample: on a sort column mixing numbers (9, 10) with a
string ("2") the comparator is cyclic under the real default-locale
collation - 9 before 10 numerically, 10 before "2" and "2" before 9 by
`localeCompare` - so it is not a consistent comparison function, and
ECMAScript then leaves the entire sort order implementation-defined: the
input order itself, which places the null-keyed row first, is a conforming
output of the sort. -/
theorem C9_counterexample :
    conformingSort localeCmpCE true ceData ceData ∧
      ceData[0]? = some (none, 0) ∧ ceData[1]? = some (some (Sum.inl 9), 1) := by
  have m1 : ((some (Sum.inl 9), 1) : Option (ℚ ⊕ String) × ℕ) ∈ ceData :=
    List.mem_cons_of_mem _ (List.mem_cons_self _ _)
  have m2 : ((some (Sum.inl 10), 2) : Option (ℚ ⊕ String) × ℕ) ∈ ceData :=
    List.mem_cons_of_mem _ (List.mem_cons_of_mem _ (List.mem_cons_self _ _))
  have m3 : ((some (Sum.inr "2"), 3) : Option (ℚ ⊕ String) × ℕ) ∈ ceData :=
    List.mem_cons_of_mem _ (List.mem_cons_of_mem _ (List.mem_cons_of_mem _
      (List.mem_cons_self _ _)))
  have h12 : rowCompare localeCmpCE true (some (Sum.inl 9)) (some (Sum.inl 10)) ≤ 0 := by
    norm_num [rowCompare]
  have h23 : rowCompare localeCmpCE true (some (Sum.inl 10)) (some (Sum.inr "2")) ≤ 0 := by
    norm_num [rowCompare, localeCmpCE]
  have h13 : ¬ rowCompare localeCmpCE true (some (Sum.inl 9)) (some (Sum.inr "2")) ≤ 0 := by
    norm_num [rowCompare, localeCmpCE]
  refine ⟨Or.inr ⟨?_, List.Perm.refl _⟩, rfl, rfl⟩
  intro hcons
  exact h13 (hcons.2 _ m1 _ m2 _ m3 h12 h23)

/-- C9 amended: null-keyed rows are placed after all non-null-keyed rows,
in both sort directions, whenever ECMAScript determines the output:
unconditionally in the stable-sort model - for every data array, every
sort-key value type (numeric, string or mixed) and every locale collation,
with no assumption on `strCmp`, because the comparator decides null
comparisons before inspecting value types - and for every conforming
output whenever the comparator is consistent on the array; on a column
mixing numbers and strings the comparator can be cyclic and the order
becomes implementation-defined (see the counterexample). -/
theorem C9_nulls_last {β : Type} (strCmp : ℚ ⊕ String → ℚ ⊕ String → ℚ) (dir : Bool)
    (data : List (Option (ℚ ⊕ String) × β)) :
    (∀ (i j : ℕ) (ri rj : Option (ℚ ⊕ String) × β), i < j →
        (sortRows strCmp dir data)[i]? = some ri →
        (sortRows strCmp dir data)[j]? = some rj → ri.1 = none → rj.1 = none) ∧
    (∀ out, consistentOn strCmp dir data → conformingSort strCmp dir data out →
      ∀ (i j : ℕ) (ri rj : Option (ℚ ⊕ String) × β), i < j →
        out[i]? = some ri → out[j]? = some rj → ri.1 = none → rj.1 = none) := by
  have hmodel : ∀ (i j : ℕ) (ri rj : Option (ℚ ⊕ String) × β), i < j →
      (sortRows strCmp dir data)[i]? = some ri →
      (sortRows strCmp dir data)[j]? = some rj → ri.1 = none → rj.1 = none := by
    intro i j ri rj hij hi hj hni
    obtain ⟨hilen, hival⟩ := List.getElem?_eq_some.mp hi
    obtain ⟨hjlen, hjval⟩ := List.getElem?_eq_some.mp hj
    have hle := (List.pairwise_iff_getElem.mp (sortRows_nullsLast strCmp dir data))
      i j hilen hjlen hij
    rw [hival, hjval] at hle
    exact hle hni
  refine ⟨hmodel, ?_⟩
  intro out hcons hout
  rcases hout with ⟨-, rfl⟩ | ⟨hnc, -⟩
  · exact hmodel
  · exact absurd hcons hnc

/-- C9 witness: a two-row null-keyed column; both parts of the theorem are
exercised - the model output and a conforming output of the consistent
comparator. -/
theorem C9_nulls_last_witness :
    0 < 1 ∧
      (sortRows (fun _ _ => 0) true
        [((none : Option (ℚ ⊕ String)), (0 : ℕ)), (none, 1)])[0]? = some (none, 0) ∧
      (sortRows (fun _ _ => 0) true
        [((none : Option (ℚ ⊕ String)), (0 : ℕ)), (none, 1)])[1]? = some (none, 1) ∧
      ((none : Option (ℚ ⊕ String)), (1 : ℕ)).1 = none :=
  ⟨by decide, by decide, by decide,
    (C9_nulls_last (fun _ _ => 0) true
        [((none : Option (ℚ ⊕ String)), (0 : ℕ)), (none, 1)]).1
      0 1 (none, 0) (none, 1) (by decide) (by decide) (by decide) rfl⟩

/-- C10: for a series of at least 2 strictly positive closes, the
`comparisonMetrics` max drawdown is nonnegative, strictly below 100, equals
the maximum over bars of `(runningPeak - close)/runningPeak * 100`, and is
0 exactly when no close falls below an earlier close. -/
theorem C10_max_drawdown (closes : List ℚ) (h2 : 2 ≤ closes.length)
    (hpos : ∀ x ∈ closes, 0 < x) :
    0 ≤ comparisonMaxDrawdown closes ∧ comparisonMaxDrawdown closes < 100 ∧
      comparisonMaxDrawdown closes = ddMaxSpec (closes.getD 0 0) closes ∧
      (comparisonMaxDrawdown closes = 0 ↔ closes.Pairwise (· ≤ ·)) := by
  have hguard : comparisonMaxDrawdown closes = maxDrawdown closes := by
    rw [comparisonMaxDrawdown, if_neg (by omega)]
  have hp0 : 0 < closes.getD 0 0 := by
    rw [List.getD_eq_getElem closes 0 (by omega)]
    exact hpos _ (List.getElem_mem (by omega))
  have hspec := maxDrawdown_eq_spec closes (by omega) hpos
  refine ⟨?_, ?_, ?_, ?_⟩
  · rw [hguard, hspec]
    exact ddMaxSpec_nonneg _ _ hp0 hpos
  · rw [hguard, hspec]
    exact ddMaxSpec_lt_100 _ _ hp0 hpos
  · rw [hguard, hspec]
  · rw [hguard, hspec]
    obtain ⟨c0, cs, rfl⟩ : ∃ c0 cs, closes = c0 :: cs := by
      cases closes with
      | nil => simp at h2
      | cons a l => exact ⟨a, l, rfl⟩
    have hc0 : (c0 :: cs).getD 0 0 = c0 := rfl
    rw [hc0] at hp0 ⊢
    rw [ddMaxSpec_eq_zero_iff c0 (c0 :: cs) hp0 hpos, List.chain_cons]
    have hiff : List.Chain (· ≤ ·) c0 cs ↔ List.Pairwise (· ≤ ·) (c0 :: cs) := by
      rw [← List.chain'_iff_pairwise]
      exact Iff.rfl
    constructor
    · rintro ⟨-, hch⟩
      exact hiff.mp hch
    · intro hpw
      exact ⟨le_refl c0, hiff.mpr hpw⟩

/-- C10 witness: closes `[4, 2]` (drawdown 50). -/
theorem C10_max_drawdown_witness :
    2 ≤ ([4, 2] : List ℚ).length ∧ (∀ x ∈ ([4, 2] : List ℚ), 0 < x) ∧
      (0 ≤ comparisonMaxDrawdown [4, 2] ∧ comparisonMaxDrawdown [4, 2] < 100 ∧
        comparisonMaxDrawdown [4, 2] = ddMaxSpec (([4, 2] : List ℚ).getD 0 0) [4, 2] ∧
        (comparisonMaxDrawdown [4, 2] = 0 ↔ ([4, 2] : List ℚ).Pairwise (· ≤ ·))) :=
  ⟨by decide, by decide, C10_max_drawdown [4, 2] (by decide) (by decide)⟩

end RedditStock
